import Mathlib

/-!
Verification of the shopping-list aggregation engine of the foodgram backend
(`backend/recipes/views.py`, `RecipeViewSet.download_shopping_cart`) together
with the data-model invariants of `backend/recipes/models.py` and the
recipe-ingredient write path of `backend/recipes/serializers.py`
(`RecipeWriteSerializer`).

The relational rows are embedded as plain structures, the Django queryset
`RecipeIngredient.objects.filter(recipe_id__in=ids).values('ingredient__name',
'ingredient__measurement_unit').annotate(total_amount=Sum('amount'))` as a
filter/join followed by a streaming group-by (the operational reading of the
SQL `GROUP BY` with `SUM`), and the view as a pure function from a database
snapshot to an `Except` of an HTTP response.
-/

/-- Row of the `Ingredient` catalog table (`models.Ingredient`): a primary
key, a `name` and a `measurement_unit`, both character fields. -/
structure Ingredient where
  id : Nat
  name : String
  measurement_unit : String
deriving DecidableEq, Repr

/-- Row of the `RecipeIngredient` link table (`models.RecipeIngredient`):
foreign keys `recipe`, `ingredient`, and an integer `amount`. -/
structure RecipeIngredient where
  recipe_id : Nat
  ingredient_id : Nat
  amount : Int
deriving DecidableEq, Repr

/-- Row of the `ShoppingCart` table (`models.ShoppingCart`): one user / one
recipe the user intends to shop for. -/
structure ShoppingCart where
  user_id : Nat
  recipe_id : Nat
deriving DecidableEq, Repr

/-- Row of the `Favorite` table (`models.Favorite`); it has the same shape as
a cart entry and is never read by the download view. -/
structure Favorite where
  user_id : Nat
  recipe_id : Nat
deriving DecidableEq, Repr

/-- Snapshot of the tables the recipes app stores; the download view only
ever reads `ingredients`, `recipe_ingredients` and `shopping_cart`. -/
structure Database where
  ingredients : List Ingredient
  recipe_ingredients : List RecipeIngredient
  shopping_cart : List ShoppingCart
  favorites : List Favorite
deriving Repr

/-- One row of the queryset after
`.values('ingredient__name', 'ingredient__measurement_unit')` and before the
`Sum` annotation: the link's amount tagged with the joined ingredient's
name and unit. -/
structure IngredientPair where
  name : String
  measurement_unit : String
  amount : Int
deriving DecidableEq, Repr

/-- One row of the annotated queryset consumed by the rendering loop:
`values('ingredient__name', 'ingredient__measurement_unit')` plus
`total_amount=Sum('amount')`. -/
structure AggregatedLine where
  name : String
  measurement_unit : String
  total_amount : Int
deriving DecidableEq, Repr

/-- Grouping key of an input row: the `GROUP BY` columns
(`ingredient__name`, `ingredient__measurement_unit`). -/
def pairKey (p : IngredientPair) : String × String :=
  (p.name, p.measurement_unit)

/-- Grouping key of an output line. -/
def lineKey (l : AggregatedLine) : String × String :=
  (l.name, l.measurement_unit)

/-- One step of the streaming group-by: fold a row into the accumulator,
adding its amount to the line holding its key, or opening a fresh line when
no line holds it yet. -/
def addPair : List AggregatedLine → IngredientPair → List AggregatedLine
  | [], p => [⟨p.name, p.measurement_unit, p.amount⟩]
  | l :: ls, p =>
    if lineKey l = pairKey p then
      ⟨l.name, l.measurement_unit, l.total_amount + p.amount⟩ :: ls
    else
      l :: addPair ls p

/-- The `annotate(total_amount=Sum('amount'))` aggregation: group the rows by
(`ingredient__name`, `ingredient__measurement_unit`) and sum the amounts of
each group. -/
def aggregatePairs (ps : List IngredientPair) : List AggregatedLine :=
  ps.foldl addPair []

/-- The caller's cart rows: `user.shopping_cart` (the reverse relation on
`ShoppingCart.user`). -/
def shopping_cart_entries (db : Database) (uid : Nat) : List ShoppingCart :=
  db.shopping_cart.filter (fun e => e.user_id = uid)

/-- `user.shopping_cart.values_list('recipe_id', flat=True)`. -/
def cart_recipe_ids (db : Database) (uid : Nat) : List Nat :=
  (shopping_cart_entries db uid).map (·.recipe_id)

/-- `RecipeIngredient.objects.filter(recipe_id__in=recipe_ids)` followed by
the join to `Ingredient` that `values('ingredient__name',
'ingredient__measurement_unit')` performs: one (name, unit, amount) row per
link whose recipe is among the given identifiers. -/
def resolveIngredientPairs (db : Database) (ids : List Nat) : List IngredientPair :=
  (db.recipe_ingredients.filter (fun l => ids.contains l.recipe_id)).filterMap
    (fun l =>
      (db.ingredients.find? (fun i => i.id = l.ingredient_id)).map
        (fun i => ⟨i.name, i.measurement_unit, l.amount⟩))

/-- The body of the rendering loop: the f-string appending the name, a
dash, the total amount, the measurement unit and a newline. -/
def renderLine (l : AggregatedLine) : String :=
  l.name ++ " - " ++ toString l.total_amount ++ " " ++ l.measurement_unit ++ "\n"

/-- The literal the view seeds `content` with. -/
def shoppingListHeader : String := "Список покупок:\n\n"

/-- Domain error of the download operation; the view maps it to an HTTP 400
response carrying the message `'Список покупок пуст'`. -/
inductive ShoppingListError where
  | emptyCart
deriving DecidableEq, Repr

/-- The successful `HttpResponse` of the view: the text body, the
`content_type` argument and the `Content-Disposition` header. -/
structure HttpResponse where
  body : String
  content_type : String
  content_disposition : String
deriving DecidableEq, Repr

/-- `RecipeViewSet.download_shopping_cart`: reject when the caller's cart is
empty, otherwise resolve the cart's recipe identifiers to (name, unit,
amount) rows, group and sum them, and render a plain-text attachment. -/
def download_shopping_cart (db : Database) (uid : Nat) :
    Except ShoppingListError HttpResponse :=
  if (shopping_cart_entries db uid).isEmpty then
    .error .emptyCart
  else
    let recipe_ids := cart_recipe_ids db uid
    let ingredients := aggregatePairs (resolveIngredientPairs db recipe_ids)
    let content := ingredients.foldl (fun acc l => acc ++ renderLine l) shoppingListHeader
    .ok ⟨content, "text/plain", "attachment; filename=\"shopping_list.txt\""⟩

/-- The keys of the lines of an accumulator, in order. -/
def lineKeys (ls : List AggregatedLine) : List (String × String) :=
  ls.map lineKey

/-- Total amount an accumulator assigns to a key: the sum of the
`total_amount` fields of its lines holding that key. -/
def keyTotal (k : String × String) (ls : List AggregatedLine) : Int :=
  ((ls.filter (fun l => lineKey l = k)).map (·.total_amount)).sum

/-- Total amount a pair sequence carries on a key: the sum of the amounts of
its rows holding that key. -/
def pairsTotal (k : String × String) (ps : List IngredientPair) : Int :=
  ((ps.filter (fun p => pairKey p = k)).map (·.amount)).sum

/-- Grand total of an accumulator. -/
def sumTotals (ls : List AggregatedLine) : Int :=
  (ls.map (·.total_amount)).sum

lemma keyTotal_nil (k : String × String) : keyTotal k [] = 0 := rfl

lemma keyTotal_cons (k : String × String) (l : AggregatedLine) (ls : List AggregatedLine) :
    keyTotal k (l :: ls) = (if lineKey l = k then l.total_amount else 0) + keyTotal k ls := by
  by_cases h : lineKey l = k <;> simp [keyTotal, List.filter_cons, h]

lemma pairsTotal_nil (k : String × String) : pairsTotal k [] = 0 := rfl

lemma pairsTotal_cons (k : String × String) (p : IngredientPair) (ps : List IngredientPair) :
    pairsTotal k (p :: ps) = (if pairKey p = k then p.amount else 0) + pairsTotal k ps := by
  by_cases h : pairKey p = k <;> simp [pairsTotal, List.filter_cons, h]

lemma lineKey_addPair_head (p : IngredientPair) :
    lineKey ⟨p.name, p.measurement_unit, p.amount⟩ = pairKey p := rfl

lemma keyTotal_addPair (k : String × String) (ls : List AggregatedLine) (p : IngredientPair) :
    keyTotal k (addPair ls p) =
      keyTotal k ls + (if pairKey p = k then p.amount else 0) := by
  induction ls with
  | nil =>
    simp only [addPair, keyTotal_nil, keyTotal_cons]
    by_cases h : pairKey p = k <;> simp [lineKey, pairKey, h]
  | cons l ls ih =>
    by_cases h : lineKey l = pairKey p
    · simp only [addPair, if_pos h, keyTotal_cons]
      have hk : lineKey (⟨l.name, l.measurement_unit, l.total_amount + p.amount⟩ : AggregatedLine) =
          lineKey l := rfl
      rw [hk]
      by_cases h2 : lineKey l = k
      · rw [if_pos h2, if_pos h2, if_pos (h ▸ h2)]
        ring
      · rw [if_neg h2, if_neg h2, if_neg (fun hp => h2 (h.trans hp))]
        ring
    · simp only [addPair, if_neg h, keyTotal_cons, ih]
      ring

lemma keyTotal_foldl (k : String × String) :
    ∀ (ps : List IngredientPair) (acc : List AggregatedLine),
      keyTotal k (ps.foldl addPair acc) = keyTotal k acc + pairsTotal k ps
  | [], acc => by simp [pairsTotal_nil]
  | p :: ps, acc => by
    rw [List.foldl_cons, keyTotal_foldl k ps (addPair acc p), keyTotal_addPair,
      pairsTotal_cons]
    ring

lemma keyTotal_aggregatePairs (k : String × String) (ps : List IngredientPair) :
    keyTotal k (aggregatePairs ps) = pairsTotal k ps := by
  rw [aggregatePairs, keyTotal_foldl, keyTotal_nil, zero_add]

lemma lineKeys_addPair (ls : List AggregatedLine) (p : IngredientPair) :
    lineKeys (addPair ls p) =
      if pairKey p ∈ lineKeys ls then lineKeys ls else lineKeys ls ++ [pairKey p] := by
  induction ls with
  | nil => simp [addPair, lineKeys, lineKey, pairKey]
  | cons l ls ih =>
    by_cases h : lineKey l = pairKey p
    · simp only [addPair, if_pos h, lineKeys, List.map_cons]
      have hupd : lineKey (⟨l.name, l.measurement_unit, l.total_amount + p.amount⟩ :
          AggregatedLine) = lineKey l := rfl
      rw [hupd, if_pos (by rw [← h]; exact List.mem_cons_self _ _)]
    · have hne : pairKey p ≠ lineKey l := fun hp => h hp.symm
      simp only [lineKeys] at ih ⊢
      simp only [addPair, if_neg h, List.map_cons, ih]
      by_cases hm : pairKey p ∈ List.map lineKey ls
      · rw [if_pos hm, if_pos (List.mem_cons_of_mem _ hm)]
      · rw [if_neg hm, if_neg (by
          intro hc
          rcases List.mem_cons.mp hc with hc | hc
          · exact hne hc
          · exact hm hc), List.cons_append]

lemma mem_lineKeys_addPair (k : String × String) (ls : List AggregatedLine)
    (p : IngredientPair) :
    k ∈ lineKeys (addPair ls p) ↔ k ∈ lineKeys ls ∨ k = pairKey p := by
  rw [lineKeys_addPair]
  by_cases h : pairKey p ∈ lineKeys ls
  · rw [if_pos h]
    constructor
    · exact Or.inl
    · rintro (hk | rfl)
      · exact hk
      · exact h
  · rw [if_neg h]
    simp

lemma nodup_lineKeys_addPair (ls : List AggregatedLine) (p : IngredientPair)
    (h : (lineKeys ls).Nodup) : (lineKeys (addPair ls p)).Nodup := by
  rw [lineKeys_addPair]
  by_cases hm : pairKey p ∈ lineKeys ls
  · rwa [if_pos hm]
  · rw [if_neg hm]
    exact List.Nodup.append h (List.nodup_singleton _)
      (List.disjoint_left.mpr (fun a ha hb => hm (by simpa using (List.mem_singleton.mp hb) ▸ ha)))

lemma nodup_lineKeys_foldl :
    ∀ (ps : List IngredientPair) (acc : List AggregatedLine),
      (lineKeys acc).Nodup → (lineKeys (ps.foldl addPair acc)).Nodup
  | [], _, h => h
  | p :: ps, acc, h =>
    List.foldl_cons .. ▸ nodup_lineKeys_foldl ps (addPair acc p) (nodup_lineKeys_addPair acc p h)

lemma nodup_lineKeys_aggregatePairs (ps : List IngredientPair) :
    (lineKeys (aggregatePairs ps)).Nodup :=
  nodup_lineKeys_foldl ps [] List.nodup_nil

lemma mem_lineKeys_foldl (k : String × String) :
    ∀ (ps : List IngredientPair) (acc : List AggregatedLine),
      k ∈ lineKeys (ps.foldl addPair acc) ↔ k ∈ lineKeys acc ∨ k ∈ ps.map pairKey
  | [], acc => by simp
  | p :: ps, acc => by
    rw [List.foldl_cons, mem_lineKeys_foldl k ps (addPair acc p), mem_lineKeys_addPair]
    simp only [List.map_cons, List.mem_cons]
    tauto

lemma mem_lineKeys_aggregatePairs (k : String × String) (ps : List IngredientPair) :
    k ∈ lineKeys (aggregatePairs ps) ↔ k ∈ ps.map pairKey := by
  rw [aggregatePairs, mem_lineKeys_foldl]
  simp [lineKeys]

lemma sumTotals_addPair (ls : List AggregatedLine) (p : IngredientPair) :
    sumTotals (addPair ls p) = sumTotals ls + p.amount := by
  induction ls with
  | nil => simp [addPair, sumTotals]
  | cons l ls ih =>
    by_cases h : lineKey l = pairKey p
    · simp only [addPair, if_pos h, sumTotals, List.map_cons, List.sum_cons]
      ring
    · simp only [addPair, if_neg h, sumTotals, List.map_cons, List.sum_cons] at *
      rw [ih]
      ring

lemma sumTotals_foldl :
    ∀ (ps : List IngredientPair) (acc : List AggregatedLine),
      sumTotals (ps.foldl addPair acc) = sumTotals acc + (ps.map (·.amount)).sum
  | [], acc => by simp
  | p :: ps, acc => by
    rw [List.foldl_cons, sumTotals_foldl ps (addPair acc p), sumTotals_addPair]
    simp only [List.map_cons, List.sum_cons]
    ring

lemma keyTotal_eq_zero_of_not_mem (k : String × String) (ls : List AggregatedLine)
    (h : k ∉ lineKeys ls) : keyTotal k ls = 0 := by
  induction ls with
  | nil => rfl
  | cons l ls ih =>
    have h1 : lineKey l ≠ k := by
      intro hl
      exact h (by simp [lineKeys, ← hl])
    have h2 : k ∉ lineKeys ls := by
      intro hm
      simp only [lineKeys, List.map_cons, List.mem_cons] at h
      exact h (Or.inr (by simpa [lineKeys] using hm))
    rw [keyTotal_cons, if_neg h1, ih h2, add_zero]

lemma keyTotal_of_mem_nodup (ls : List AggregatedLine) (l : AggregatedLine)
    (hnd : (lineKeys ls).Nodup) (hm : l ∈ ls) : keyTotal (lineKey l) ls = l.total_amount := by
  induction ls with
  | nil => cases hm
  | cons x ls ih =>
    simp only [lineKeys, List.map_cons, List.nodup_cons] at hnd
    rcases List.mem_cons.mp hm with rfl | hm
    · rw [keyTotal_cons, if_pos rfl,
        keyTotal_eq_zero_of_not_mem _ _ (by simpa [lineKeys] using hnd.1), add_zero]
    · have hx : lineKey x ≠ lineKey l := by
        intro he
        exact hnd.1 (he ▸ List.mem_map_of_mem lineKey hm)
      rw [keyTotal_cons, if_neg hx, ih hnd.2 hm, zero_add]

lemma lineKeys_aggregatePairs_perm_dedup (ps : List IngredientPair) :
    (lineKeys (aggregatePairs ps)).Perm (ps.map pairKey).dedup := by
  rw [List.perm_ext_iff_of_nodup (nodup_lineKeys_aggregatePairs ps)
    (List.nodup_dedup _)]
  intro k
  rw [mem_lineKeys_aggregatePairs, List.mem_dedup]

lemma length_aggregatePairs (ps : List IngredientPair) :
    (aggregatePairs ps).length = (ps.map pairKey).dedup.length := by
  have h := (lineKeys_aggregatePairs_perm_dedup ps).length_eq
  simpa [lineKeys] using h

lemma string_join_cons (s : String) (l : List String) :
    String.join (s :: l) = s ++ String.join l := by
  apply String.ext
  simp [String.join_eq, String.data_append]

lemma foldl_render_eq_join (ls : List AggregatedLine) (s : String) :
    ls.foldl (fun acc l => acc ++ renderLine l) s = s ++ String.join (ls.map renderLine) := by
  induction ls generalizing s with
  | nil => simp [String.join]
  | cons l ls ih =>
    rw [List.foldl_cons, ih, List.map_cons, string_join_cons, String.append_assoc]

/-- Database-level constraints declared on the `Ingredient` model:
`unique=True` on the `name` field (every name occurs at most once in the
catalog) together with
`UniqueConstraint(fields=['name', 'measurement_unit'], name='unique_ingredient')`. -/
def ValidIngredientCatalog (c : List Ingredient) : Prop :=
  (c.map (·.name)).Nodup ∧ (c.map (fun i => (i.name, i.measurement_unit))).Nodup

/-- Whether inserting a row into the catalog satisfies the constraints the
`Ingredient` model declares against the existing rows. -/
def ingredientInsertAllowed (c : List Ingredient) (i : Ingredient) : Bool :=
  c.all (fun j => j.name ≠ i.name) &&
    c.all (fun j => ¬(j.name = i.name ∧ j.measurement_unit = i.measurement_unit))

/-- In any catalog satisfying the declared constraints, a name determines the
unit: the `unique=True` declaration on `name` leaves no room for two rows that
share a name and differ in unit. -/
lemma valid_catalog_name_determines_unit (c : List Ingredient)
    (h : ValidIngredientCatalog c) :
    ∀ i ∈ c, ∀ j ∈ c, i.name = j.name → i = j := by
  intro i hi j hj hname
  have hinj := List.inj_on_of_nodup_map h.1
  exact hinj hi hj hname

/-- One element of the `ingredients` payload handled by
`RecipeWriteSerializer`: the primary key of an `Ingredient` (the serializer
field `id`) and an `amount`. -/
structure IngredientInput where
  ingredient_id : Nat
  amount : Int
deriving DecidableEq, Repr

/-- `RecipeWriteSerializer._validate_ingredients_data`: reject an empty list,
then a repeated ingredient (`len(ingredients) != len(set(ingredients))`),
then any entry with `amount <= 0`. -/
def validate_ingredients_data (ds : List IngredientInput) : Except String Unit :=
  if ds.length = 0 then
    .error "Добавьте хотя бы один ингредиент"
  else if (ds.map (·.ingredient_id)).dedup.length ≠ (ds.map (·.ingredient_id)).length then
    .error "Ингредиенты не должны повторяться"
  else if ds.any (fun d => d.amount ≤ 0) then
    .error "Количество должно быть больше нуля"
  else
    .ok ()

/-- `RecipeWriteSerializer._create_recipe_ingredients`: one
`RecipeIngredient` row per payload entry, handed to `bulk_create`. -/
def create_recipe_ingredients (recipe_id : Nat) (ds : List IngredientInput) :
    List RecipeIngredient :=
  ds.map (fun d => ⟨recipe_id, d.ingredient_id, d.amount⟩)

/-- Effect of `RecipeWriteSerializer.create` on the link table: validate the
payload, then append the rows built for the freshly created recipe. -/
def recipe_create_links (links : List RecipeIngredient) (recipe_id : Nat)
    (ds : List IngredientInput) : Except String (List RecipeIngredient) :=
  match validate_ingredients_data ds with
  | .error e => .error e
  | .ok _ => .ok (links ++ create_recipe_ingredients recipe_id ds)

/-- Effect of `RecipeWriteSerializer.update` on the link table when the
payload carries `ingredients`: validate, delete every link of the recipe
(`RecipeIngredient.objects.filter(recipe=instance).delete()`), then recreate
the whole batch. -/
def recipe_update_links (links : List RecipeIngredient) (recipe_id : Nat)
    (ds : List IngredientInput) : Except String (List RecipeIngredient) :=
  match validate_ingredients_data ds with
  | .error e => .error e
  | .ok _ =>
    .ok ((links.filter (fun l => l.recipe_id ≠ recipe_id)) ++
      create_recipe_ingredients recipe_id ds)

/-- Invariants of the link table claimed by the spec: positive amounts, and
at most one link per (recipe, ingredient) pair. -/
def LinksInvariant (links : List RecipeIngredient) : Prop :=
  (∀ l ∈ links, 0 < l.amount) ∧
    (links.map (fun l => (l.recipe_id, l.ingredient_id))).Nodup

lemma validate_ingredients_data_ok (ds : List IngredientInput)
    (h : validate_ingredients_data ds = .ok ()) :
    ds ≠ [] ∧ (ds.map (·.ingredient_id)).Nodup ∧ ∀ d ∈ ds, 0 < d.amount := by
  unfold validate_ingredients_data at h
  split_ifs at h with h1 h2 h3
  refine ⟨fun hnil => h1 (by simp [hnil]), ?_, ?_⟩
  · have hlen : (ds.map (·.ingredient_id)).dedup.length = (ds.map (·.ingredient_id)).length :=
      not_ne_iff.mp h2
    have heq := List.Sublist.eq_of_length (List.dedup_sublist _) hlen
    rw [← heq]
    exact List.nodup_dedup _
  · intro d hd
    rw [List.any_eq_true] at h3
    push_neg at h3
    have := h3 d hd
    simpa using this

lemma create_recipe_ingredients_keys (rid : Nat) (ds : List IngredientInput) :
    (create_recipe_ingredients rid ds).map (fun l => (l.recipe_id, l.ingredient_id)) =
      (ds.map (·.ingredient_id)).map (fun i => (rid, i)) := by
  simp [create_recipe_ingredients, List.map_map, Function.comp]

lemma links_append_batch (base : List RecipeIngredient) (rid : Nat)
    (ds : List IngredientInput)
    (hbase_inv : LinksInvariant base)
    (hbase : ∀ l ∈ base, l.recipe_id ≠ rid)
    (hds_nodup : (ds.map (·.ingredient_id)).Nodup)
    (hds_pos : ∀ d ∈ ds, 0 < d.amount) :
    LinksInvariant (base ++ create_recipe_ingredients rid ds)
    ∧ (base ++ create_recipe_ingredients rid ds).filter (fun l => l.recipe_id = rid) =
        create_recipe_ingredients rid ds
    ∧ (base ++ create_recipe_ingredients rid ds).filter (fun l => l.recipe_id ≠ rid) = base := by
  have hnew_rid : ∀ l ∈ create_recipe_ingredients rid ds, l.recipe_id = rid := by
    intro l hl
    simp only [create_recipe_ingredients, List.mem_map] at hl
    obtain ⟨d, _, rfl⟩ := hl
    rfl
  refine ⟨⟨?_, ?_⟩, ?_, ?_⟩
  · intro l hl
    rcases List.mem_append.mp hl with hl | hl
    · exact hbase_inv.1 l hl
    · simp only [create_recipe_ingredients, List.mem_map] at hl
      obtain ⟨d, hd, rfl⟩ := hl
      exact hds_pos d hd
  · rw [List.map_append, create_recipe_ingredients_keys]
    refine List.Nodup.append hbase_inv.2 ?_ ?_
    · exact List.Nodup.map (fun a b hab => by simpa using congrArg Prod.snd hab) hds_nodup
    · rw [List.disjoint_left]
      intro k hk1 hk2
      simp only [List.mem_map] at hk1 hk2
      obtain ⟨l, hl, rfl⟩ := hk1
      obtain ⟨i, _, hik⟩ := hk2
      exact hbase l hl (by
        have := congrArg Prod.fst hik
        simpa using this.symm)
  · rw [List.filter_append,
      List.filter_eq_nil_iff.mpr (fun l hl => by simpa using hbase l hl),
      List.filter_eq_self.mpr (fun l hl => by simpa using hnew_rid l hl),
      List.nil_append]
  · rw [List.filter_append,
      List.filter_eq_self.mpr (fun l hl => by simpa using hbase l hl),
      List.filter_eq_nil_iff.mpr (fun l hl => by simpa using hnew_rid l hl),
      List.append_nil]

/-- The pair sequence of the spec's concrete scenario: recipe A contributes
("Flour", "g", 200) and ("Egg", "pcs", 2), recipe B contributes
("Flour", "g", 150) and ("Milk", "ml", 300). -/
def cartPairsExample : List IngredientPair :=
  [⟨"Flour", "g", 200⟩, ⟨"Egg", "pcs", 2⟩, ⟨"Flour", "g", 150⟩, ⟨"Milk", "ml", 300⟩]

/-- C1: the aggregation step produces exactly one line per distinct
(name, unit) identity present in the input — the output keys are duplicate
free and are exactly the input keys — each line's total amount is the sum of
all input amounts carrying that identity, and on the concrete scenario the
output is (up to the deterministic order chosen) Egg - 2 pcs, Flour - 350 g,
Milk - 300 ml. -/
theorem aggregator_one_line_per_identity (ps : List IngredientPair) :
    (lineKeys (aggregatePairs ps)).Nodup
    ∧ (∀ k, k ∈ lineKeys (aggregatePairs ps) ↔ k ∈ ps.map pairKey)
    ∧ (∀ l ∈ aggregatePairs ps, l.total_amount = pairsTotal (lineKey l) ps)
    ∧ (aggregatePairs cartPairsExample).Perm
        [⟨"Egg", "pcs", 2⟩, ⟨"Flour", "g", 350⟩, ⟨"Milk", "ml", 300⟩] := by
  refine ⟨nodup_lineKeys_aggregatePairs ps,
    fun k => mem_lineKeys_aggregatePairs k ps, fun l hl => ?_, ?_⟩
  · rw [← keyTotal_aggregatePairs,
      keyTotal_of_mem_nodup _ l (nodup_lineKeys_aggregatePairs ps) hl]
  · have : aggregatePairs cartPairsExample =
        [⟨"Flour", "g", 350⟩, ⟨"Egg", "pcs", 2⟩, ⟨"Milk", "ml", 300⟩] := by decide
    rw [this]
    exact List.Perm.swap _ _ _

/-- Witness for C1 at the concrete scenario: the Flour line is present and
its total is the sum of the two Flour amounts. -/
theorem aggregator_one_line_per_identity_witness :
    (⟨"Flour", "g", 350⟩ : AggregatedLine) ∈ aggregatePairs cartPairsExample
    ∧ (350 : Int) = pairsTotal ("Flour", "g") cartPairsExample := by
  refine ⟨by decide, ?_⟩
  exact (aggregator_one_line_per_identity cartPairsExample).2.2.1
    ⟨"Flour", "g", 350⟩ (by decide)

/-- C2: the download operation returns the empty-cart domain error exactly
when the caller's shopping cart has zero entries; with a non-empty cart no
such error is possible. -/
theorem download_shopping_cart_empty_cart_error (db : Database) (uid : Nat) :
    download_shopping_cart db uid = .error .emptyCart ↔
      shopping_cart_entries db uid = [] := by
  by_cases h : (shopping_cart_entries db uid).isEmpty
  · rw [List.isEmpty_iff] at h
    simp [download_shopping_cart, List.isEmpty_iff, h]
  · have h' : ¬ shopping_cart_entries db uid = [] := by
      rwa [List.isEmpty_iff] at h
    simp [download_shopping_cart, List.isEmpty_iff, h']

/-- Witness for C2: a user with an empty cart receives the empty-cart error. -/
theorem download_shopping_cart_empty_cart_error_witness :
    download_shopping_cart ⟨[], [], [], []⟩ 7 = .error .emptyCart :=
  (download_shopping_cart_empty_cart_error ⟨[], [], [], []⟩ 7).mpr rfl

/-- C3: conservation of quantity — the sum of the output totals equals the
sum of the input amounts. -/
theorem aggregator_conserves_quantity (ps : List IngredientPair) :
    ((aggregatePairs ps).map (fun l => l.total_amount)).sum =
      (ps.map (fun p => p.amount)).sum := by
  have h := sumTotals_foldl ps []
  simpa [aggregatePairs, sumTotals] using h

/-- Witness for C3 at the concrete scenario. -/
theorem aggregator_conserves_quantity_witness :
    ((aggregatePairs cartPairsExample).map (fun l => l.total_amount)).sum =
      (cartPairsExample.map (fun p => p.amount)).sum :=
  aggregator_conserves_quantity cartPairsExample

/-- C4: the aggregator never merges two rows whose units differ — each keeps
a line of its own key, and those lines are distinct — and the two Sugar rows
of the spec's example come out as two separate lines. -/
theorem aggregator_unit_sensitive (ps : List IngredientPair) :
    (∀ p ∈ ps, ∀ q ∈ ps, p.measurement_unit ≠ q.measurement_unit →
      ∃ l1 ∈ aggregatePairs ps, ∃ l2 ∈ aggregatePairs ps,
        lineKey l1 = pairKey p ∧ lineKey l2 = pairKey q ∧ l1 ≠ l2)
    ∧ aggregatePairs [⟨"Sugar", "g", 100⟩, ⟨"Sugar", "tsp", 5⟩] =
        [⟨"Sugar", "g", 100⟩, ⟨"Sugar", "tsp", 5⟩] := by
  constructor
  · intro p hp q hq hunit
    have hp' : pairKey p ∈ lineKeys (aggregatePairs ps) :=
      (mem_lineKeys_aggregatePairs _ ps).mpr (List.mem_map_of_mem pairKey hp)
    have hq' : pairKey q ∈ lineKeys (aggregatePairs ps) :=
      (mem_lineKeys_aggregatePairs _ ps).mpr (List.mem_map_of_mem pairKey hq)
    simp only [lineKeys, List.mem_map] at hp' hq'
    obtain ⟨l1, hl1, hk1⟩ := hp'
    obtain ⟨l2, hl2, hk2⟩ := hq'
    refine ⟨l1, hl1, l2, hl2, hk1, hk2, fun he => hunit ?_⟩
    have : pairKey p = pairKey q := by rw [← hk1, ← hk2, he]
    exact congrArg Prod.snd this
  · decide

/-- Witness for C4 at the Sugar example: both Sugar rows keep separate
output lines. -/
theorem aggregator_unit_sensitive_witness :
    ∃ l1 ∈ aggregatePairs [⟨"Sugar", "g", 100⟩, ⟨"Sugar", "tsp", 5⟩],
      ∃ l2 ∈ aggregatePairs [⟨"Sugar", "g", 100⟩, ⟨"Sugar", "tsp", 5⟩],
        lineKey l1 = pairKey ⟨"Sugar", "g", 100⟩
        ∧ lineKey l2 = pairKey ⟨"Sugar", "tsp", 5⟩ ∧ l1 ≠ l2 :=
  (aggregator_unit_sensitive [⟨"Sugar", "g", 100⟩, ⟨"Sugar", "tsp", 5⟩]).1
    ⟨"Sugar", "g", 100⟩ (by decide) ⟨"Sugar", "tsp", 5⟩ (by decide) (by decide)

/-- A one-recipe database: Flour catalog entry, one link of recipe 1, user 7
has recipe 1 in the cart, no favorites. -/
def dbFlour : Database :=
  ⟨[⟨1, "Flour", "g"⟩], [⟨1, 1, 200⟩], [⟨7, 1⟩], []⟩

/-- The same database after a write to the favorites table. -/
def dbFlourFav : Database :=
  ⟨[⟨1, "Flour", "g"⟩], [⟨1, 1, 200⟩], [⟨7, 1⟩], [⟨7, 1⟩]⟩

/-- C5: the download operation reads only the shopping-cart, link and
ingredient tables, so two snapshots agreeing on those three tables — in
particular two calls in a row with no intervening writes to them — produce
byte-identical responses. -/
theorem download_shopping_cart_deterministic (db1 db2 : Database) (uid : Nat)
    (hc : db1.shopping_cart = db2.shopping_cart)
    (hr : db1.recipe_ingredients = db2.recipe_ingredients)
    (hi : db1.ingredients = db2.ingredients) :
    download_shopping_cart db1 uid = download_shopping_cart db2 uid := by
  simp only [download_shopping_cart, shopping_cart_entries, cart_recipe_ids,
    resolveIngredientPairs, hc, hr, hi]

/-- Witness for C5: a favorites write between the two calls does not change
the response. -/
theorem download_shopping_cart_deterministic_witness :
    download_shopping_cart dbFlour 7 = download_shopping_cart dbFlourFav 7 :=
  download_shopping_cart_deterministic dbFlour dbFlourFav 7 rfl rfl rfl

/-- C6: for a non-empty cart the response is exactly the header line, a
blank line, then one "name - total amount unit" line per aggregated
ingredient, served as text/plain with the attachment disposition naming
shopping_list.txt. -/
theorem download_shopping_cart_body_format (db : Database) (uid : Nat)
    (h : shopping_cart_entries db uid ≠ []) :
    download_shopping_cart db uid = .ok
      { body := "Список покупок:\n\n" ++ String.join
          ((aggregatePairs (resolveIngredientPairs db (cart_recipe_ids db uid))).map
            (fun l => l.name ++ " - " ++ toString l.total_amount ++ " " ++
              l.measurement_unit ++ "\n")),
        content_type := "text/plain",
        content_disposition := "attachment; filename=\"shopping_list.txt\"" } := by
  have hne : (shopping_cart_entries db uid).isEmpty = false := by
    simp [List.isEmpty_iff, h]
  simp only [download_shopping_cart, hne, Bool.false_eq_true, if_false]
  rw [foldl_render_eq_join]
  rfl

/-- Witness for C6 on the one-recipe database: the literal bytes of the
response. -/
theorem download_shopping_cart_body_format_witness :
    download_shopping_cart dbFlour 7 = .ok
      { body := "Список покупок:\n\nFlour - 200 g\n",
        content_type := "text/plain",
        content_disposition := "attachment; filename=\"shopping_list.txt\"" } := by
  rw [download_shopping_cart_body_format dbFlour 7 (by decide)]
  rfl

/-- C7: a recipe identifier matched by no link row contributes zero pairs
and is never an error — dropping it from the identifier set leaves the
resolver's output unchanged — and an empty identifier set yields an empty
pair sequence. -/
theorem resolver_skips_stale_ids (db : Database) (r : Nat) (ids : List Nat) :
    ((∀ l ∈ db.recipe_ingredients, l.recipe_id ≠ r) →
      resolveIngredientPairs db (r :: ids) = resolveIngredientPairs db ids)
    ∧ resolveIngredientPairs db [] = [] := by
  constructor
  · intro hs
    unfold resolveIngredientPairs
    congr 1
    apply List.filter_congr
    intro l hl
    rw [List.contains_cons]
    have : (l.recipe_id == r) = false := by
      simpa using hs l hl
    rw [this, Bool.false_or]
  · unfold resolveIngredientPairs
    simp

/-- Witness for C7: in the one-recipe database, identifier 99 (a deleted
recipe) contributes nothing — the report over [99, 1] equals the report over
[1]. -/
theorem resolver_skips_stale_ids_witness :
    resolveIngredientPairs dbFlour (99 :: [1]) = resolveIngredientPairs dbFlour [1] :=
  (resolver_skips_stale_ids dbFlour 99 [1]).1 (by decide)

/-- A database where user 7 has a recipe in the cart but the recipe has no
ingredient links. -/
def dbNoLinks : Database := ⟨[], [], [⟨7, 5⟩], []⟩

/-- C10: a non-empty cart whose recipes resolve to zero ingredient pairs is
not an error — the response is the header and blank line with no ingredient
lines. -/
theorem download_shopping_cart_header_only (db : Database) (uid : Nat)
    (hc : shopping_cart_entries db uid ≠ [])
    (hp : resolveIngredientPairs db (cart_recipe_ids db uid) = []) :
    download_shopping_cart db uid = .ok
      { body := "Список покупок:\n\n",
        content_type := "text/plain",
        content_disposition := "attachment; filename=\"shopping_list.txt\"" } := by
  have hne : (shopping_cart_entries db uid).isEmpty = false := by
    simp [List.isEmpty_iff, hc]
  simp only [download_shopping_cart, hne, Bool.false_eq_true, if_false, hp]
  rfl

/-- Witness for C10: cart references recipe 5 which has no link rows; the
response is the header-only report, not an error. -/
theorem download_shopping_cart_header_only_witness :
    download_shopping_cart dbNoLinks 7 = .ok
      { body := "Список покупок:\n\n",
        content_type := "text/plain",
        content_disposition := "attachment; filename=\"shopping_list.txt\"" } :=
  download_shopping_cart_header_only dbNoLinks 7 (by decide) rfl

/-- C8: under the constraints the `Ingredient` model actually declares, a
catalog cannot hold two records sharing a name even when their units differ:
the catalog holding sugar/g alone is valid, inserting sugar/tsp next to it is
rejected, and the two-record catalog violates the declared constraints — the
`unique=True` on `name` overrides the composite `unique_ingredient`
constraint that matches the spec's intended (name, unit) identity. -/
theorem ingredient_same_name_rejected :
    ValidIngredientCatalog [⟨1, "sugar", "g"⟩]
    ∧ ingredientInsertAllowed [⟨1, "sugar", "g"⟩] ⟨2, "sugar", "tsp"⟩ = false
    ∧ ¬ ValidIngredientCatalog [⟨1, "sugar", "g"⟩, ⟨2, "sugar", "tsp"⟩] := by
  refine ⟨⟨by decide, by decide⟩, by decide, fun h => ?_⟩
  have := valid_catalog_name_determines_unit _ h
    ⟨1, "sugar", "g"⟩ (by decide) ⟨2, "sugar", "tsp"⟩ (by decide) rfl
  cases this

/-- C9: starting from a link table satisfying the invariants — positive
amounts and at most one link per (recipe, ingredient) — both the create path
and the update path of the recipe write serializer preserve them, and both
install the validated batch as exactly the links of the written recipe; the
update path additionally leaves every other recipe's links untouched
(full delete-and-recreate). -/
theorem recipe_links_batch_replace (links : List RecipeIngredient) (rid : Nat)
    (ds : List IngredientInput) (out : List RecipeIngredient)
    (hinv : LinksInvariant links) :
    (recipe_create_links links rid ds = .ok out →
      (∀ l ∈ links, l.recipe_id ≠ rid) →
      LinksInvariant out
      ∧ out.filter (fun l => l.recipe_id = rid) = create_recipe_ingredients rid ds)
    ∧ (recipe_update_links links rid ds = .ok out →
      LinksInvariant out
      ∧ out.filter (fun l => l.recipe_id = rid) = create_recipe_ingredients rid ds
      ∧ out.filter (fun l => l.recipe_id ≠ rid) = links.filter (fun l => l.recipe_id ≠ rid)) := by
  constructor
  · intro hok hfresh
    unfold recipe_create_links at hok
    rcases hval : validate_ingredients_data ds with e | u
    · rw [hval] at hok
      cases hok
    · rw [hval] at hok
      obtain ⟨-, hnodup, hpos⟩ := validate_ingredients_data_ok ds (by rw [hval])
      have hb := links_append_batch links rid ds hinv hfresh hnodup hpos
      have hout : out = links ++ create_recipe_ingredients rid ds := by
        cases hok
        rfl
      rw [hout]
      exact ⟨hb.1, hb.2.1⟩
  · intro hok
    unfold recipe_update_links at hok
    rcases hval : validate_ingredients_data ds with e | u
    · rw [hval] at hok
      cases hok
    · rw [hval] at hok
      obtain ⟨-, hnodup, hpos⟩ := validate_ingredients_data_ok ds (by rw [hval])
      have hbase_inv : LinksInvariant (links.filter (fun l => l.recipe_id ≠ rid)) := by
        constructor
        · intro l hl
          exact hinv.1 l (List.mem_of_mem_filter hl)
        · exact List.Nodup.sublist
            (List.Sublist.map _ (List.filter_sublist links)) hinv.2
      have hbase : ∀ l ∈ links.filter (fun l => l.recipe_id ≠ rid), l.recipe_id ≠ rid := by
        intro l hl
        have := List.of_mem_filter hl
        simpa using this
      have hb := links_append_batch _ rid ds hbase_inv hbase hnodup hpos
      have hout : out = links.filter (fun l => l.recipe_id ≠ rid) ++
          create_recipe_ingredients rid ds := by
        cases hok
        rfl
      rw [hout]
      exact ⟨hb.1, hb.2.1, by rw [hb.2.2]⟩

/-- Witness for C9: updating recipe 2 with amounts 3 and 4 over a table
holding one link of recipe 1 succeeds, preserves both invariants, installs
exactly the new batch for recipe 2, and leaves recipe 1's link untouched. -/
theorem recipe_links_batch_replace_witness :
    LinksInvariant [⟨1, 10, 5⟩, ⟨2, 10, 3⟩, ⟨2, 11, 4⟩]
    ∧ List.filter (fun l => l.recipe_id = 2)
        ([⟨1, 10, 5⟩, ⟨2, 10, 3⟩, ⟨2, 11, 4⟩] : List RecipeIngredient) =
        create_recipe_ingredients 2 [⟨10, 3⟩, ⟨11, 4⟩]
    ∧ List.filter (fun l => l.recipe_id ≠ 2)
        ([⟨1, 10, 5⟩, ⟨2, 10, 3⟩, ⟨2, 11, 4⟩] : List RecipeIngredient) =
        List.filter (fun l => l.recipe_id ≠ 2) ([⟨1, 10, 5⟩] : List RecipeIngredient) :=
  (recipe_links_batch_replace [⟨1, 10, 5⟩] 2 [⟨10, 3⟩, ⟨11, 4⟩]
    [⟨1, 10, 5⟩, ⟨2, 10, 3⟩, ⟨2, 11, 4⟩] ⟨by decide, by decide⟩).2 rfl
